import Mathlib

/-!
Verification development for the VaniJS PWA core (reconciler, navigation
engine, dispatch substructure, state store), shallowly embedded from the
JavaScript sources: `vanijs.js` (virtual tree, reconciler, state store),
`router.js` (navigation engine) and `plugins.js` (hook bus and plugin
registry).  JavaScript objects and Maps are modelled as insertion-ordered
association lists, JS strings as `String`, JS numbers occurring in the
embedded fragments as `Int`/`Nat`, and exceptions as explicit error
components.  Functions passed around by the host code (event handlers,
hook handlers) are modelled by numeric identities, so that the `===`
identity tests of the source become decidable equalities.
-/

/-- Lookup in an insertion-ordered association list; models JS
`obj[key]` / `Map.get` returning `undefined` as `none`. -/
def alookup {β : Type} : List (String × β) → String → Option β
  | [], _ => none
  | (k, v) :: rest, key => if k = key then some v else alookup rest key

/-- Set a key in an insertion-ordered association list: an existing key is
overwritten in place (JS objects and Maps keep the original insertion
position), a fresh key is appended. -/
def aset {β : Type} : List (String × β) → String → β → List (String × β)
  | [], k, v => [(k, v)]
  | (k0, v0) :: rest, k, v =>
    if k0 = k then (k0, v) :: rest else (k0, v0) :: aset rest k v

/-- Remove a key from an association list (JS `delete` / `removeAttribute`). -/
def aremove {β : Type} : List (String × β) → String → List (String × β)
  | [], _ => []
  | (k0, v0) :: rest, k =>
    if k0 = k then rest else (k0, v0) :: aremove rest k

theorem alookup_aset {β : Type} (m : List (String × β)) (k : String) (v : β)
    (name : String) :
    alookup (aset m k v) name = if k = name then some v else alookup m name := by
  induction m with
  | nil =>
    by_cases h : k = name <;> simp [aset, alookup, h]
  | cons hd tl ih =>
    obtain ⟨k0, v0⟩ := hd
    by_cases h0 : k0 = k
    · subst h0
      by_cases h : k0 = name <;> simp [aset, alookup, h]
    · by_cases h : k0 = name
      · subst h
        have : ¬ k = k0 := fun hk => h0 hk.symm
        simp [aset, alookup, h0, this]
      · simp [aset, alookup, h0, h, ih]

/-- A compiled path-pattern token: a literal character or a `:name` capture. -/
inductive Tok where
  | lit (c : Char)
  | par (name : String)
deriving DecidableEq, Repr

/-- A JS word character, as matched by `\w`. -/
def isWordChar (c : Char) : Bool := c.isAlphanum || c = '_'

/-- Compile a registered path into pattern tokens, mirroring
`path.replace(/:(\w+)/g, '(?<$1>[^/]+)')`: a colon followed by at least one
word character opens a named capture; anything else stays literal.  The
fuel argument only bounds recursion depth (each step consumes at least one
character); `tokenize` supplies enough. -/
def tokenizeF : Nat → List Char → List Tok
  | 0, _ => []
  | _ + 1, [] => []
  | f + 1, c :: cs =>
    if c = ':' then
      let w := cs.takeWhile isWordChar
      if w.isEmpty then Tok.lit c :: tokenizeF f cs
      else Tok.par (String.mk w) :: tokenizeF f (cs.drop w.length)
    else Tok.lit c :: tokenizeF f cs

/-- Tokenize a whole path. -/
def tokenize (cs : List Char) : List Tok := tokenizeF (cs.length + 1) cs

/-- The parameter names of a registered path, in order — mirrors
`path.match(/:(\w+)/g).map(p => p.substring(1))`. -/
def pathParams (path : String) : List String :=
  (tokenize path.data).filterMap fun t =>
    match t with
    | Tok.par n => some n
    | Tok.lit _ => none

/-- Anchored matching of a token list against a path, with the greedy
backtracking of the generated regex: a `[^/]+` capture first tries the
longest non-slash run, backing off one character at a time down to one.
Returns the named capture groups on success.  The fuel argument only
bounds the token-list recursion depth; `matchPattern` supplies enough. -/
def matchToks : Nat → List Tok → List Char → Option (List (String × String))
  | 0, _, _ => none
  | _ + 1, [], cs => if cs.isEmpty then some [] else none
  | _ + 1, Tok.lit _ :: _, [] => none
  | f + 1, Tok.lit c :: ts, c2 :: cs =>
    if c = c2 then matchToks f ts cs else none
  | f + 1, Tok.par n :: ts, cs =>
    let runLen := (cs.takeWhile (fun c => c ≠ '/')).length
    (List.range runLen).foldl
      (fun acc i =>
        match acc with
        | some r => some r
        | none =>
          let k := runLen - i
          match matchToks f ts (cs.drop k) with
          | some gs => some ((n, String.mk (cs.take k)) :: gs)
          | none => none)
      none

/-- Anchored pattern match with sufficient fuel (each token consumes one
recursion step). -/
def matchPattern (toks : List Tok) (cs : List Char) :
    Option (List (String × String)) :=
  matchToks (toks.length + 1) toks cs

/-- A registered route: original path, compiled pattern, parameter names and
the bound screen identifier (`router.js`, `defineRoute`). -/
structure Route where
  originalPath : String
  toks : List Tok
  paramNames : List String
  component : String
deriving DecidableEq, Repr

/-- Register a route (`defineRoute`): stored in the route mapping keyed by
the original path string, in registration order. -/
def defineRoute (routes : List (String × Route)) (path component : String) :
    List (String × Route) :=
  aset routes path
    { originalPath := path
      toks := tokenize path.data
      paramNames := pathParams path
      component := component }

/-- First route (in registration order) whose pattern matches, with its
extracted parameters — the fallback loop of `findMatchingRoute`. -/
def firstPatternMatch : List (String × Route) → String →
    Option (Route × List (String × String))
  | [], _ => none
  | (_, r) :: rest, path =>
    match matchPattern r.toks path.data with
    | some gs =>
      some (r, r.paramNames.map fun p => (p, (alookup gs p).getD ""))
    | none => firstPatternMatch rest path

/-- `findMatchingRoute`: exact string match first (empty params), then the
registration-order pattern iteration. -/
def findMatchingRoute (routes : List (String × Route)) (path : String) :
    Option Route × List (String × String) :=
  match alookup routes path with
  | some r => (some r, [])
  | none =>
    match firstPatternMatch routes path with
    | some (r, ps) => (some r, ps)
    | none => (none, [])

/-- Observable actions a guard/middleware can take on the navigation
context: call the redirect capability, call the cancel capability (which
throws the sentinel `Navigation cancelled` error), or throw some other
fault. -/
inductive GAct where
  | redirect (url : String)
  | cancel
  | throwErr (msg : String)
deriving DecidableEq, Repr

/-- The navigation engine's mutable state (`VaniRouter` fields). -/
structure RouterState where
  routes : List (String × Route)
  history : List String
  currentRoute : Option String
  previousRoute : Option String
  routerMiddlewares : List (List GAct)
  params : List (String × String)
  navigationLock : Bool
deriving DecidableEq, Repr

/-- Externally observable events of a navigation attempt. -/
inductive REv where
  | warnLocked
  | hashSet (path : String)
  | hookNavComplete (path : String)
  | hookNavError (path msg : String)
deriving DecidableEq, Repr

/-- Run one guard's actions in order; a redirect invokes the supplied
navigation continuation (the source's
`redirect: (url) => this.navigate(url, false, { force: true })`),
`cancel` throws the sentinel message, any other throw propagates.
The third component is the thrown message, if any. -/
def runActs (nav : RouterState → String → RouterState × List REv) :
    RouterState → List GAct → RouterState × List REv × Option String
  | s, [] => (s, [], none)
  | s, GAct.redirect url :: rest =>
    let r := nav s url
    let r2 := runActs nav r.1 rest
    (r2.1, r.2 ++ r2.2.1, r2.2.2)
  | s, GAct.cancel :: _ => (s, [], some "Navigation cancelled")
  | s, GAct.throwErr m :: _ => (s, [], some m)

/-- Run the middleware chain in order, stopping at the first thrown fault
(the `for … await middleware(routerContext, …)` loop). -/
def runGuardList (nav : RouterState → String → RouterState × List REv) :
    RouterState → List (List GAct) → RouterState × List REv × Option String
  | s, [] => (s, [], none)
  | s, g :: rest =>
    let r := runActs nav s g
    match r.2.2 with
    | some e => (r.1, r.2.1, some e)
    | none =>
      let r2 := runGuardList nav r.1 rest
      (r2.1, r.2.1 ++ r2.2.1, r2.2.2)

/-- `VaniRouter.navigate(path, replace, options)`.  Faithful structure:
lock gate, same-path no-op gate, lock acquisition, route matching with the
forced `/404` recursion, middleware chain (whose redirect capability
re-enters `navigate` with the lock still held), history commit
(replace-last or push), hash update and completion hook, the catch block
that swallows only the `Navigation cancelled` sentinel, and the `finally`
unlock.  Fuel only bounds the re-entrancy depth; any positive fuel is
enough for every run in which re-entrant calls hit the lock gate. -/
def navigate : Nat → RouterState → String → Bool → Bool →
    RouterState × List REv
  | 0, s, _, _, _ => (s, [])
  | f + 1, s, path, replace, force =>
    if s.navigationLock then (s, [REv.warnLocked])
    else if s.currentRoute = some path ∧ ¬ force then (s, [])
    else
      let s0 : RouterState := { s with navigationLock := true }
      let m := findMatchingRoute s0.routes path
      match m.1 with
      | none =>
        let r := navigate f s0 "/404" false true
        ({ r.1 with navigationLock := false }, r.2)
      | some _ =>
        let g := runGuardList (fun st url => navigate f st url false true)
          s0 s0.routerMiddlewares
        match g.2.2 with
        | some msg =>
          if msg = "Navigation cancelled" then
            ({ g.1 with navigationLock := false }, g.2.1)
          else
            ({ g.1 with navigationLock := false },
              g.2.1 ++ [REv.hookNavError path msg])
        | none =>
          let s1 := g.1
          let h :=
            if replace ∧ s1.history ≠ [] then s1.history.dropLast ++ [path]
            else s1.history ++ [path]
          let s2 : RouterState :=
            { s1 with history := h, currentRoute := some path, params := m.2 }
          ({ s2 with navigationLock := false },
            g.2.1 ++ [REv.hashSet path, REv.hookNavComplete path])

/-- JS `previous || '/'`: an absent or empty-string popped entry falls back
to the root. -/
def jsOr (o : Option String) (d : String) : String :=
  match o with
  | some s => if s = "" then d else s
  | none => d

/-- `VaniRouter.back()`: with more than one history entry, pop twice and
navigate to the second popped entry (root fallback); otherwise navigate to
the root. -/
def back (f : Nat) (s : RouterState) : RouterState × List REv :=
  if 1 < s.history.length then
    let h1 := s.history.dropLast
    let prev := h1.getLast?
    navigate f { s with history := h1.dropLast } (jsOr prev "/") false false
  else
    navigate f s "/" false false

/-! ### Router theorems -/

/-- C4: while the mutual-exclusion flag is set, a second `navigate` call is
dropped, not queued: it returns immediately (only warning) and leaves the
whole engine state — routes, history, current route, params, lock flag —
unchanged. -/
theorem navigate_locked_is_noop (f : Nat) (s : RouterState) (path : String)
    (replace force : Bool) (h : s.navigationLock = true) :
    navigate (f + 1) s path replace force = (s, [REv.warnLocked]) := by
  simp [navigate, h]

def c4State : RouterState :=
  { routes := defineRoute [] "/" "Home", history := ["/"],
    currentRoute := some "/", previousRoute := none,
    routerMiddlewares := [], params := [], navigationLock := true }

/-- Witness for C4 at a concrete locked state. -/
theorem navigate_locked_is_noop_witness :
    c4State.navigationLock = true ∧
      navigate 7 c4State "/a" false false = (c4State, [REv.warnLocked]) :=
  ⟨by decide, navigate_locked_is_noop 6 c4State "/a" false false (by decide)⟩

def c5ParamRoutes : List (String × Route) := defineRoute [] "/item/:id" "ItemScreen"

def c5MixedRoutes : List (String × Route) :=
  defineRoute (defineRoute [] "/item/:id" "ItemScreen") "/item/42" "LiteralScreen"

def c5OrderRoutes : List (String × Route) :=
  defineRoute (defineRoute [] "/x/:a" "FirstScreen") "/x/:b" "SecondScreen"

/-- C5: `findMatchingRoute` returns the exactly-matching literal route with
empty params whenever the path equals a registered path string (exact match
wins over any pattern, even an earlier-registered one that also matches);
otherwise the first pattern match in registration order wins, `:name`
segments populating the named parameters: `/item/42` against `/item/:id`
matches with `id = "42"`, while `/item` does not match. -/
theorem findMatchingRoute_spec :
    (∀ (routes : List (String × Route)) (path : String) (r : Route),
        alookup routes path = some r →
        findMatchingRoute routes path = (some r, [])) ∧
    ((findMatchingRoute c5ParamRoutes "/item/42").1 =
        some { originalPath := "/item/:id", toks := tokenize "/item/:id".data,
               paramNames := ["id"], component := "ItemScreen" } ∧
      (findMatchingRoute c5ParamRoutes "/item/42").2 = [("id", "42")] ∧
      findMatchingRoute c5ParamRoutes "/item" = (none, [])) ∧
    ((findMatchingRoute c5MixedRoutes "/item/42").1 =
        some { originalPath := "/item/42", toks := tokenize "/item/42".data,
               paramNames := [], component := "LiteralScreen" } ∧
      (findMatchingRoute c5MixedRoutes "/item/42").2 = []) ∧
    ((findMatchingRoute c5OrderRoutes "/x/1").1 =
        some { originalPath := "/x/:a", toks := tokenize "/x/:a".data,
               paramNames := ["a"], component := "FirstScreen" } ∧
      (findMatchingRoute c5OrderRoutes "/x/1").2 = [("a", "1")]) := by
  refine ⟨?_, by decide, by decide, by decide⟩
  intro routes path r h
  simp [findMatchingRoute, h]

/-- Witness for C5's universal exact-match clause at a concrete registry. -/
theorem findMatchingRoute_spec_witness :
    alookup c5MixedRoutes "/item/42" =
        some { originalPath := "/item/42", toks := tokenize "/item/42".data,
               paramNames := [], component := "LiteralScreen" } ∧
      findMatchingRoute c5MixedRoutes "/item/42" =
        (some { originalPath := "/item/42", toks := tokenize "/item/42".data,
                paramNames := [], component := "LiteralScreen" }, []) :=
  ⟨by decide, findMatchingRoute_spec.1 c5MixedRoutes "/item/42" _ (by decide)⟩

def c3Routes : List (String × Route) :=
  defineRoute (defineRoute (defineRoute [] "/" "Home") "/a" "ScreenA") "/b" "ScreenB"

def c3State : RouterState :=
  { routes := c3Routes, history := ["/", "/a", "/b"], currentRoute := some "/b",
    previousRoute := none, routerMiddlewares := [], params := [],
    navigationLock := false }

def c3ShallowState : RouterState :=
  { routes := c3Routes, history := ["/x"], currentRoute := some "/x",
    previousRoute := none, routerMiddlewares := [], params := [],
    navigationLock := false }

/-- C3: `back()` on history `[/, /a, /b]` pops twice — leaving the
intermediate history `[/]` — and performs exactly one navigation, to `/a`
(the second popped entry); afterwards the current route is `/a` and the
history is `[/, /a]` (the navigate pushes). With one or zero entries,
`back()` is a single navigation to the root `/`. -/
theorem back_pops_twice_navigates_once :
    back 10 c3State =
        navigate 10 { c3State with history := ["/"] } "/a" false false ∧
    (back 10 c3State).1.currentRoute = some "/a" ∧
    (back 10 c3State).1.history = ["/", "/a"] ∧
    (back 10 c3State).2 = [REv.hashSet "/a", REv.hookNavComplete "/a"] ∧
    ∀ (f : Nat) (s : RouterState), s.history.length ≤ 1 →
      back f s = navigate f s "/" false false := by
  refine ⟨by decide, by decide, by decide, by decide, ?_⟩
  intro f s h
  simp [back, Nat.not_lt.2 h]

/-- Witness for C3's insufficient-depth clause at a concrete one-entry
history. -/
theorem back_pops_twice_navigates_once_witness :
    c3ShallowState.history.length ≤ 1 ∧
      back 4 c3ShallowState = navigate 4 c3ShallowState "/" false false :=
  ⟨by decide, back_pops_twice_navigates_once.2.2.2.2 4 c3ShallowState (by decide)⟩

def c1Routes : List (String × Route) :=
  defineRoute (defineRoute (defineRoute [] "/" "Home") "/login" "LoginScreen")
    "/dashboard" "DashScreen"

def c1State : RouterState :=
  { routes := c1Routes, history := ["/"], currentRoute := some "/",
    previousRoute := none,
    routerMiddlewares := [[GAct.redirect "/login", GAct.cancel]],
    params := [], navigationLock := false }

/-- C1 (failing run): navigating to `/dashboard` from `/` with a guard that
calls `redirect('/login')` and then cancels.  The redirect capability
re-enters `navigate` while the navigation lock is still held, so the
redirect is dropped by the lock gate; the cancellation sentinel is then
swallowed.  The attempt does abort without a hard failure and without
committing the requested path, but the final location is the pre-navigation
`/` — not `/login` as the specification requires. -/
theorem navigate_redirect_dropped_by_lock :
    navigate 10 c1State "/dashboard" false false = (c1State, [REv.warnLocked]) ∧
    (navigate 10 c1State "/dashboard" false false).1.currentRoute = some "/" ∧
    (navigate 10 c1State "/dashboard" false false).1.currentRoute ≠
      some "/login" ∧
    (navigate 10 c1State "/dashboard" false false).1.currentRoute ≠
      some "/dashboard" ∧
    (∀ e ∈ (navigate 10 c1State "/dashboard" false false).2,
      e = REv.warnLocked) := by
  refine ⟨by decide, by decide, by decide, by decide, ?_⟩
  decide

/-! ## Dispatch substructure (`plugins.js`)

Plugin instances are modelled by the data the embedded claims observe: the
hook table the instance would register (`plugin.hooks`, each entry a hook
name, a handler identity and the handler's optional `priority` property)
and whether its `init` throws.  Hook handler behaviour during emission is
supplied as an environment mapping handler identities to "throws or not".
-/

/-- One subscriber entry of the hook registry: owner plugin, handler
identity and priority. -/
structure HookEntry where
  plugin : String
  fn : Nat
  priority : Nat
deriving DecidableEq, Repr

/-- The observable shape of a plugin instance. -/
structure PluginInst where
  initThrows : Bool
  instHooks : List (String × Nat × Option Nat)
deriving DecidableEq, Repr

/-- Registered-plugin record (`this.plugins` values). -/
structure PluginInfo where
  inst : PluginInst
  enabled : Bool
  version : String
deriving DecidableEq, Repr

/-- The plugin system's mutable state (`VaniPluginSystem` fields). -/
structure PSys where
  plugins : List (String × PluginInfo)
  hooks : List (String × List HookEntry)
  pluginStates : List (String × String)
  dependencies : List (String × List String)
  pluginLoadOrder : List String
  initialized : Bool
deriving DecidableEq, Repr

/-- Observable events of the plugin system. -/
inductive PEv where
  | warnDup (name : String)
  | errMissingDeps (name : String)
  | registered (name : String)
  | invoke (hook plugin : String) (fn : Nat)
  | hookFailed (hook plugin : String)
  | emitStart (hook : String)
  | inited (name : String)
  | initFailed (name : String)
  | warnAlreadyInit
deriving DecidableEq, Repr

/-- `fn.priority || 50`: an absent or zero priority property falls back to
the default 50. -/
def hookPriority (p : Option Nat) : Nat :=
  match p with
  | some q => if q = 0 then 50 else q
  | none => 50

/-- One step of `registerHooks`: push the handler onto the hook's
subscriber list (duplicates deliberately allowed — no dedup), then re-sort
the list ascending by priority (JS `Array.prototype.sort` is stable;
modelled by the stable `List.mergeSort`). -/
def regStep (pluginName : String) (acc : PSys) (h : String × Nat × Option Nat) :
    PSys :=
  let cur := (alookup acc.hooks h.1).getD []
  let entry : HookEntry :=
    { plugin := pluginName, fn := h.2.1, priority := hookPriority h.2.2 }
  { acc with
    hooks := aset acc.hooks h.1
      ((cur ++ [entry]).mergeSort
        (fun a b => decide (a.priority ≤ b.priority))) }

/-- `registerHooks(pluginName, hooks)`: register each handler in turn. -/
def registerHooks (s : PSys) (pluginName : String)
    (hs : List (String × Nat × Option Nat)) : PSys :=
  hs.foldl (regStep pluginName) s

/-- `isPluginEnabled(name)`. -/
def isPluginEnabled (s : PSys) (name : String) : Bool :=
  match alookup s.plugins name with
  | some info => info.enabled
  | none => false

/-- One result entry of `executeHook`'s `results` array. -/
structure HookRes where
  plugin : String
  success : Bool
deriving DecidableEq, Repr

/-- `executeHook(hookName, ...args)`: iterate the (priority-sorted)
subscriber list in order, skipping subscribers of disabled plugins,
awaiting each handler sequentially; a throwing handler is caught, recorded
as a failed result, and triggers a secondary `hook:error` emission, after
which iteration continues with the remaining subscribers.  `env` maps a
handler identity to whether it throws.  Fuel bounds only the nested
`hook:error` re-emission depth.
One step of the subscriber loop is factored out as `hookStep`, taking the
trace of the (constant) nested `hook:error` emission as an argument. -/
def hookStep (s : PSys) (env : Nat → Bool) (name : String)
    (innerTrace : List PEv) (acc : List HookRes × List PEv) (h : HookEntry) :
    List HookRes × List PEv :=
  if ¬ isPluginEnabled s h.plugin then acc
  else if env h.fn then
    (acc.1 ++ [{ plugin := h.plugin, success := false }],
      acc.2 ++ [PEv.invoke name h.plugin h.fn,
        PEv.hookFailed name h.plugin,
        PEv.emitStart "hook:error"] ++ innerTrace)
  else
    (acc.1 ++ [{ plugin := h.plugin, success := true }],
      acc.2 ++ [PEv.invoke name h.plugin h.fn])

/-- The subscriber loop of `executeHook` (see `hookStep`). -/
def executeHook : Nat → PSys → (Nat → Bool) → String →
    List HookRes × List PEv
  | 0, _, _, _ => ([], [])
  | f + 1, s, env, name =>
    match alookup s.hooks name with
    | none => ([], [])
    | some hs =>
      hs.foldl (hookStep s env name (executeHook f s env "hook:error").2)
        ([], [])

/-- `initializePlugin(name)`: missing or disabled plugin is a no-op
returning false; a throwing `init` marks the state `error`; otherwise the
instance's hooks are registered and the state becomes `initialized`.
(The source also registers console commands and emits lifecycle hooks;
those are recorded as events only.) -/
def initializePlugin (s : PSys) (name : String) : Bool × PSys × List PEv :=
  match alookup s.plugins name with
  | none => (false, s, [])
  | some info =>
    if ¬ info.enabled then (false, s, [])
    else if info.inst.initThrows then
      (false, { s with pluginStates := aset s.pluginStates name "error" },
        [PEv.initFailed name])
    else
      let s1 := registerHooks s name info.inst.instHooks
      (true, { s1 with pluginStates := aset s1.pluginStates name "initialized" },
        [PEv.inited name])

/-- Registration options (`register`'s third argument). -/
structure RegOptions where
  dependencies : Option (List String)
  autoInit : Bool
  version : Option String
deriving DecidableEq, Repr

/-- `register(name, plugin, options)`: a duplicate name is rejected up
front with no state change; declared dependencies must all be registered
already (otherwise rejection, again with no state change); then the plugin
record and its `registered` state are stored, and — only when the system is
already initialized and `autoInit` is not `false` — the plugin is
immediately initialized. -/
def register (s : PSys) (name : String) (inst : PluginInst)
    (opts : RegOptions) : Bool × PSys × List PEv :=
  if (alookup s.plugins name).isSome then (false, s, [PEv.warnDup name])
  else
    let afterDeps : Option PSys :=
      match opts.dependencies with
      | some ds =>
        if (ds.filter fun d => ¬ (alookup s.plugins d).isSome) ≠ [] then none
        else some { s with dependencies := aset s.dependencies name ds }
      | none => some s
    match afterDeps with
    | none => (false, s, [PEv.errMissingDeps name])
    | some s1 =>
      let s2 : PSys :=
        { s1 with
          plugins := aset s1.plugins name
            { inst := inst, enabled := true,
              version := opts.version.getD "1.0.0" }
          pluginStates := aset s1.pluginStates name "registered" }
      if s2.initialized ∧ opts.autoInit then
        let r := initializePlugin s2 name
        (true, r.2.1, [PEv.registered name] ++ r.2.2)
      else (true, s2, [PEv.registered name])

/-- DFS bookkeeping of `determineLoadOrder`: the in-progress stack `temp`,
the finished set `visited` and the output `order`. -/
structure DfsSt where
  temp : List String
  visited : List String
  order : List String
deriving DecidableEq, Repr

/-- The descriptive circular-dependency fault message. -/
def circMsg (name : String) : String :=
  "Circular dependency detected involving plugin: " ++ name

/-- Dependencies of a plugin name (`this.dependencies.get(name) || []`). -/
def depsOf (deps : List (String × List String)) (n : String) : List String :=
  (alookup deps n).getD []

/-- Visit a dependency list in order with a given visiting function,
propagating the first fault (the `for (const dep of deps) visit(dep)`
loop). -/
def visitWith (v : String → DfsSt → Except String DfsSt) :
    List String → DfsSt → Except String DfsSt
  | [], st => Except.ok st
  | d :: rest, st =>
    match v d st with
    | Except.error e => Except.error e
    | Except.ok st1 => visitWith v rest st1

/-- The recursive `visit` of `determineLoadOrder`: a name still on the
traversal stack signals the circular-dependency fault; an already finished
name is skipped; otherwise the name is pushed on the stack, its
dependencies are visited, and the name is moved to the finished set and
appended to the order.  Fuel bounds only the recursion depth, which the
caller sizes from the finite name universe; exhaustion yields the
distinguished `FUEL` error, proved unreachable for the caller's fuel. -/
def visit (deps : List (String × List String)) : Nat → String → DfsSt →
    Except String DfsSt
  | 0, _, _ => Except.error "FUEL"
  | f + 1, name, st =>
    if name ∈ st.temp then Except.error (circMsg name)
    else if name ∈ st.visited then Except.ok st
    else
      match visitWith (visit deps f) (depsOf deps name)
        { st with temp := name :: st.temp } with
      | Except.error e => Except.error e
      | Except.ok st2 =>
        Except.ok
          { temp := st2.temp.erase name, visited := name :: st2.visited,
            order := st2.order ++ [name] }

/-- The top-level loop of `determineLoadOrder` over the registered plugin
names, visiting each not-yet-finished name. -/
def topVisit (deps : List (String × List String)) (fuel : Nat) :
    List String → DfsSt → Except String DfsSt
  | [], st => Except.ok st
  | n :: ns, st =>
    if n ∈ st.visited then topVisit deps fuel ns st
    else
      match visit deps fuel n st with
      | Except.error e => Except.error e
      | Except.ok st1 => topVisit deps fuel ns st1

/-- Every name the DFS can ever reach: the registered plugin names together
with every name mentioned in the dependency mapping. -/
def univNames (s : PSys) : List String :=
  ((s.plugins.map Prod.fst) ++
    s.dependencies.flatMap (fun p => p.1 :: p.2)).dedup

/-- `determineLoadOrder()`: depth-first topological sort over the
dependency mapping, rooted at the registered plugin names. -/
def determineLoadOrder (s : PSys) : Except String (List String) :=
  match topVisit s.dependencies ((univNames s).length + 1)
    (s.plugins.map Prod.fst) { temp := [], visited := [], order := [] } with
  | Except.error e => Except.error e
  | Except.ok st => Except.ok st.order

/-- `initializeAll()`: a second call is a warning no-op; otherwise the load
order is computed (a cycle fault thrown there propagates, leaving the whole
state unchanged and no plugin initialized) and the plugins are initialized
strictly in that order. -/
def initializeAll (s : PSys) : PSys × Except String Unit × List PEv :=
  if s.initialized then (s, Except.ok (), [PEv.warnAlreadyInit])
  else
    match determineLoadOrder s with
    | Except.error e => (s, Except.error e, [])
    | Except.ok order =>
      let s1 : PSys := { s with pluginLoadOrder := order }
      let r := order.foldl
        (fun (acc : PSys × List PEv) n =>
          let t := initializePlugin acc.1 n
          (t.2.1, acc.2 ++ t.2.2))
        (s1, [])
      ({ r.1 with initialized := true }, Except.ok (), r.2)

/-! ### Dispatch theorems -/

/-- The duplicate-name gate of `register` rejects with no state change
(helper for the dispatch theorems). -/
theorem register_dup (s : PSys) (name : String) (inst : PluginInst)
    (opts : RegOptions) (h : (alookup s.plugins name).isSome) :
    register s name inst opts = (false, s, [PEv.warnDup name]) := by
  simp [register, h]

/-- C10: a second `register` call for an already-registered plugin name
returns `false` and leaves all plugin-system state (plugin map, dependency
map, plugin states, load order) unchanged; in contrast, registering the
same hook handler again appends a duplicate subscriber entry (hook
registrations deliberately allow duplicates). -/
theorem register_duplicate_rejected :
    (∀ (s : PSys) (name : String) (inst : PluginInst) (opts : RegOptions),
        (alookup s.plugins name).isSome →
        register s name inst opts = (false, s, [PEv.warnDup name])) ∧
    (∀ (s : PSys) (pn hn : String) (fid : Nat) (pr : Option Nat)
        (l : List HookEntry),
        alookup s.hooks hn = some l →
        ∃ l2, alookup (registerHooks s pn [(hn, fid, pr)]).hooks hn = some l2 ∧
          l2.length = l.length + 1) := by
  refine ⟨register_dup, ?_⟩
  intro s pn hn fid pr l h
  refine ⟨(l ++ [({ plugin := pn, fn := fid, priority := hookPriority pr } :
      HookEntry)]).mergeSort (fun a b => decide (a.priority ≤ b.priority)),
      ?_, ?_⟩
  · simp [registerHooks, regStep, alookup_aset, h]
  · simp

def c10Inst : PluginInst := { initThrows := false, instHooks := [] }

def c10Sys : PSys :=
  { plugins := [("p", { inst := c10Inst, enabled := true, version := "1.0.0" })],
    hooks := [("h", [{ plugin := "p", fn := 1, priority := 50 }])],
    pluginStates := [("p", "registered")], dependencies := [],
    pluginLoadOrder := [], initialized := false }

def c10Opts : RegOptions :=
  { dependencies := none, autoInit := true, version := none }

/-- Witness for C10 at a concrete registry holding plugin `p`. -/
theorem register_duplicate_rejected_witness :
    ((alookup c10Sys.plugins "p").isSome = true ∧
      register c10Sys "p" c10Inst c10Opts = (false, c10Sys, [PEv.warnDup "p"])) ∧
    (alookup c10Sys.hooks "h" = some [{ plugin := "p", fn := 1, priority := 50 }] ∧
      ∃ l2, alookup (registerHooks c10Sys "p" [("h", 1, some 50)]).hooks "h" =
          some l2 ∧ l2.length = 2) :=
  ⟨⟨by decide, register_duplicate_rejected.1 c10Sys "p" c10Inst c10Opts (by decide)⟩,
   ⟨by decide, register_duplicate_rejected.2 c10Sys "p" "h" 1 (some 50)
      [{ plugin := "p", fn := 1, priority := 50 }] (by decide)⟩⟩

/-- All subscriber lists in the hook registry are sorted ascending by
priority. -/
def SortedHooks (s : PSys) : Prop :=
  ∀ name l, alookup s.hooks name = some l →
    l.Pairwise (fun a b => a.priority ≤ b.priority)

theorem sortedHooks_regStep (pn : String) (s : PSys)
    (h : String × Nat × Option Nat) (hs : SortedHooks s) :
    SortedHooks (regStep pn s h) := by
  intro name l hl
  simp only [regStep] at hl
  rw [alookup_aset] at hl
  by_cases he : h.1 = name
  · subst he
    rw [if_pos rfl] at hl
    cases hl
    have hp := @List.sorted_mergeSort HookEntry
      (fun a b => decide (a.priority ≤ b.priority))
      (fun a b c hab hbc => by
        simp only [decide_eq_true_eq] at hab hbc ⊢; omega)
      (fun a b => by
        simp only [Bool.or_eq_true, decide_eq_true_eq]; omega)
      (((alookup s.hooks h.1).getD []) ++
        [{ plugin := pn, fn := h.2.1, priority := hookPriority h.2.2 }])
    exact hp.imp (fun hab => by simpa using hab)
  · rw [if_neg he] at hl
    exact hs name l hl

/-- C6 (part): `registerHooks` keeps every subscriber list
priority-sorted. -/
theorem sortedHooks_registerHooks (s : PSys) (pn : String)
    (hs : List (String × Nat × Option Nat)) (h : SortedHooks s) :
    SortedHooks (registerHooks s pn hs) := by
  rw [registerHooks]
  induction hs generalizing s with
  | nil => exact h
  | cons a t ih => exact ih (regStep pn s a) (sortedHooks_regStep pn s a h)

theorem hookFold_results (s : PSys) (env : Nat → Bool) (name : String)
    (it : List PEv) (hs : List HookEntry) (acc : List HookRes × List PEv) :
    (hs.foldl (hookStep s env name it) acc).1 =
      acc.1 ++ (hs.filter fun h => isPluginEnabled s h.plugin).map
        (fun h => { plugin := h.plugin, success := !env h.fn }) := by
  induction hs generalizing acc with
  | nil => simp
  | cons h t ih =>
    by_cases hen : isPluginEnabled s h.plugin
    · by_cases hth : env h.fn
      · simp [hookStep, hen, hth, ih]
      · simp [hookStep, hen, hth, ih]
    · simp [hookStep, hen, ih, hen]

theorem hookStep_trace (s : PSys) (env : Nat → Bool) (name : String)
    (it : List PEv) (acc : List HookRes × List PEv) (h : HookEntry) :
    ∃ t, (hookStep s env name it acc h).2 = acc.2 ++ t := by
  by_cases hen : isPluginEnabled s h.plugin
  · by_cases hth : env h.fn
    · exact ⟨[PEv.invoke name h.plugin h.fn, PEv.hookFailed name h.plugin,
        PEv.emitStart "hook:error"] ++ it, by simp [hookStep, hen, hth]⟩
    · exact ⟨[PEv.invoke name h.plugin h.fn], by simp [hookStep, hen, hth]⟩
  · exact ⟨[], by simp [hookStep, hen]⟩

theorem hookFold_trace_extends (s : PSys) (env : Nat → Bool) (name : String)
    (it : List PEv) (hs : List HookEntry) (acc : List HookRes × List PEv) :
    ∃ t, (hs.foldl (hookStep s env name it) acc).2 = acc.2 ++ t := by
  induction hs generalizing acc with
  | nil => exact ⟨[], by simp⟩
  | cons h t ih =>
    obtain ⟨t2, ht2⟩ := ih (hookStep s env name it acc h)
    obtain ⟨t1, ht1⟩ := hookStep_trace s env name it acc h
    exact ⟨t1 ++ t2, by rw [List.foldl_cons, ht2, ht1, List.append_assoc]⟩

theorem hookFold_emits_error (s : PSys) (env : Nat → Bool) (name : String)
    (it : List PEv) (hs : List HookEntry) (acc : List HookRes × List PEv)
    (h : HookEntry) (hmem : h ∈ hs) (hen : isPluginEnabled s h.plugin = true)
    (hth : env h.fn = true) :
    PEv.emitStart "hook:error" ∈ (hs.foldl (hookStep s env name it) acc).2 := by
  induction hs generalizing acc with
  | nil => cases hmem
  | cons a t ih =>
    rcases List.mem_cons.1 hmem with rfl | hmem2
    · rw [List.foldl_cons]
      obtain ⟨t2, ht2⟩ := hookFold_trace_extends s env name it t
        (hookStep s env name it acc h)
      rw [ht2]
      have : PEv.emitStart "hook:error" ∈ (hookStep s env name it acc h).2 := by
        simp [hookStep, hen, hth]
      exact List.mem_append_left _ this
    · rw [List.foldl_cons]
      exact ih _ hmem2

/-- C6: emitting a hook invokes exactly the enabled subscribers of the
(priority-sorted) stored list, sequentially in list order, each producing a
result entry whose success flag records whether the handler threw; a
throwing handler triggers a secondary `hook:error` emission and does not
prevent any later subscriber of the same emission from running; and
`registerHooks` keeps every stored subscriber list sorted ascending by
priority, so list order is ascending-priority order. -/
theorem executeHook_spec :
    (∀ (f : Nat) (s : PSys) (env : Nat → Bool) (name : String)
        (hs : List HookEntry),
        alookup s.hooks name = some hs →
        (executeHook (f + 1) s env name).1 =
          (hs.filter fun h => isPluginEnabled s h.plugin).map
            (fun h => { plugin := h.plugin, success := !env h.fn })) ∧
    (∀ (f : Nat) (s : PSys) (env : Nat → Bool) (name : String)
        (hs : List HookEntry) (h : HookEntry),
        alookup s.hooks name = some hs → h ∈ hs →
        isPluginEnabled s h.plugin = true → env h.fn = true →
        PEv.emitStart "hook:error" ∈ (executeHook (f + 1) s env name).2) ∧
    (∀ (s : PSys) (pn : String) (hs : List (String × Nat × Option Nat)),
        SortedHooks s → SortedHooks (registerHooks s pn hs)) := by
  refine ⟨?_, ?_, sortedHooks_registerHooks⟩
  · intro f s env name hs h
    rw [executeHook, h]
    exact hookFold_results s env name _ hs ([], [])
  · intro f s env name hs h hh hmem hen
    rw [executeHook, hh]
    exact hookFold_emits_error s env name _ hs ([], []) h hmem hen

def c6Inst : PluginInst := { initThrows := false, instHooks := [] }

def c6Hooks : List HookEntry :=
  [{ plugin := "p", fn := 1, priority := 10 },
   { plugin := "r", fn := 2, priority := 20 },
   { plugin := "q", fn := 3, priority := 30 }]

def c6Sys : PSys :=
  { plugins :=
      [("p", { inst := c6Inst, enabled := true, version := "1.0.0" }),
       ("q", { inst := c6Inst, enabled := true, version := "1.0.0" }),
       ("r", { inst := c6Inst, enabled := false, version := "1.0.0" })],
    hooks := [("test", c6Hooks)],
    pluginStates := [], dependencies := [], pluginLoadOrder := [],
    initialized := true }

def c6Env : Nat → Bool := fun n => n == 1

def c6Entry : HookEntry := { plugin := "p", fn := 1, priority := 10 }

/-- Witness for C6 at a concrete emission: handler 1 (plugin `p`) throws,
the disabled plugin `r` is skipped, plugin `q` still runs after the fault,
and the fault produces a secondary `hook:error` emission. -/
theorem executeHook_spec_witness :
    (alookup c6Sys.hooks "test" = some c6Hooks ∧
      (executeHook 2 c6Sys c6Env "test").1 =
        [{ plugin := "p", success := false },
         { plugin := "q", success := true }]) ∧
    PEv.emitStart "hook:error" ∈ (executeHook 2 c6Sys c6Env "test").2 :=
  ⟨⟨rfl, by
      rw [executeHook_spec.1 1 c6Sys c6Env "test" c6Hooks rfl]
      rfl⟩,
    executeHook_spec.2.1 1 c6Sys c6Env "test" c6Hooks c6Entry rfl
      (by decide) rfl rfl⟩

/-! ### C7: cycle detection in `determineLoadOrder` -/

theorem alookup_mem {β : Type} (m : List (String × β)) (k : String) (v : β)
    (h : alookup m k = some v) : (k, v) ∈ m := by
  induction m with
  | nil => cases h
  | cons hd tl ih =>
    obtain ⟨k0, v0⟩ := hd
    by_cases hk : k0 = k
    · subst hk
      simp [alookup] at h
      subst h
      exact List.mem_cons_self _ _
    · simp only [alookup, if_neg hk] at h
      exact List.mem_cons_of_mem _ (ih h)

theorem visitWith_temp_of (v : String → DfsSt → Except String DfsSt)
    (hv : ∀ n st st', v n st = Except.ok st' → st'.temp = st.temp) :
    ∀ (ds : List String) (st st' : DfsSt),
      visitWith v ds st = Except.ok st' → st'.temp = st.temp := by
  intro ds
  induction ds with
  | nil =>
    intro st st' h
    simp only [visitWith, Except.ok.injEq] at h
    rw [← h]
  | cons d rest ih =>
    intro st st' h
    simp only [visitWith] at h
    cases hv0 : v d st with
    | error e => rw [hv0] at h; cases h
    | ok st1 =>
      rw [hv0] at h
      rw [ih st1 st' h, hv d st st1 hv0]

theorem visit_temp :
    ∀ (f : Nat) (deps : List (String × List String)) (n : String)
      (st st' : DfsSt), visit deps f n st = Except.ok st' → st'.temp = st.temp := by
  intro f
  induction f with
  | zero => intro deps n st st' h; cases h
  | succ f ih =>
    intro deps n st st' h
    simp only [visit] at h
    by_cases h1 : n ∈ st.temp
    · rw [if_pos h1] at h; cases h
    · rw [if_neg h1] at h
      by_cases h2 : n ∈ st.visited
      · rw [if_pos h2] at h
        cases h
        rfl
      · rw [if_neg h2] at h
        cases hw : visitWith (visit deps f) (depsOf deps n)
            { st with temp := n :: st.temp } with
        | error e => rw [hw] at h; cases h
        | ok st2 =>
          rw [hw] at h
          cases h
          have ht : st2.temp = n :: st.temp :=
            visitWith_temp_of (visit deps f) (ih deps) _ _ _ hw
          simp [ht]

theorem visitWith_error_of (v : String → DfsSt → Except String DfsSt)
    (P : String → Prop) (hv : ∀ n st e, v n st = Except.error e → P e) :
    ∀ (ds : List String) (st : DfsSt) (e : String),
      visitWith v ds st = Except.error e → P e := by
  intro ds
  induction ds with
  | nil => intro st e h; cases h
  | cons d rest ih =>
    intro st e h
    simp only [visitWith] at h
    cases hv0 : v d st with
    | error e2 =>
      rw [hv0] at h
      cases h
      exact hv d st _ hv0
    | ok st1 =>
      rw [hv0] at h
      exact ih st1 e h

theorem visit_error_shape :
    ∀ (f : Nat) (deps : List (String × List String)) (n : String)
      (st : DfsSt) (e : String), visit deps f n st = Except.error e →
      e = "FUEL" ∨ ∃ p, e = circMsg p := by
  intro f
  induction f with
  | zero =>
    intro deps n st e h
    cases h
    exact Or.inl rfl
  | succ f ih =>
    intro deps n st e h
    simp only [visit] at h
    by_cases h1 : n ∈ st.temp
    · rw [if_pos h1] at h
      cases h
      exact Or.inr ⟨n, rfl⟩
    · rw [if_neg h1] at h
      by_cases h2 : n ∈ st.visited
      · rw [if_pos h2] at h; cases h
      · rw [if_neg h2] at h
        cases hw : visitWith (visit deps f) (depsOf deps n)
            { st with temp := n :: st.temp } with
        | error e2 =>
          rw [hw] at h
          cases h
          exact visitWith_error_of (visit deps f) _
            (fun n2 st2 e3 h3 => ih deps n2 st2 e3 h3) _ _ _ hw
        | ok st2 => rw [hw] at h; cases h

theorem topVisit_error_shape (deps : List (String × List String)) (fuel : Nat) :
    ∀ (ns : List String) (st : DfsSt) (e : String),
      topVisit deps fuel ns st = Except.error e →
      e = "FUEL" ∨ ∃ p, e = circMsg p := by
  intro ns
  induction ns with
  | nil => intro st e h; cases h
  | cons n rest ih =>
    intro st e h
    simp only [topVisit] at h
    by_cases h1 : n ∈ st.visited
    · rw [if_pos h1] at h
      exact ih st e h
    · rw [if_neg h1] at h
      cases hv : visit deps fuel n st with
      | error e2 =>
        rw [hv] at h
        cases h
        exact visit_error_shape fuel deps n st _ hv
      | ok st1 =>
        rw [hv] at h
        exact ih st1 e h

/-- The positional invariant of the produced order: every emitted name's
dependencies were emitted strictly before it. -/
def OrderInv (deps : List (String × List String)) (st : DfsSt) : Prop :=
  ∀ pre n post, st.order = pre ++ n :: post → ∀ d ∈ depsOf deps n, d ∈ pre

/-- The DFS invariant: traversal stack and order are duplicate-free, the
finished set is exactly the set of emitted names, no finished name is still
on the stack, and the order is dependency-closed (`OrderInv`). -/
def DfsInv (deps : List (String × List String)) (st : DfsSt) : Prop :=
  st.temp.Nodup ∧ st.order.Nodup ∧
    (∀ n, n ∈ st.visited ↔ n ∈ st.order) ∧
    (∀ n ∈ st.visited, n ∉ st.temp) ∧
    OrderInv deps st

theorem append_singleton_decomp {α : Type} {l pre post : List α} {n x : α}
    (h : pre ++ n :: post = l ++ [x]) :
    (pre = l ∧ n = x ∧ post = []) ∨
      ∃ post2, post = post2 ++ [x] ∧ pre ++ n :: post2 = l := by
  rcases List.eq_nil_or_concat post with rfl | ⟨post2, y, rfl⟩
  · obtain ⟨h1, h2⟩ := List.append_inj' h (by simp)
    have hn : n = x := by simpa using h2
    exact Or.inl ⟨h1, hn, rfl⟩
  · have h2 : (pre ++ n :: post2) ++ [y] = l ++ [x] := by simpa using h
    obtain ⟨h3, h4⟩ := List.append_inj' h2 (by simp)
    have hy : y = x := by simpa using h4
    exact Or.inr ⟨post2, by simp [hy], h3⟩

theorem visit_inv :
    ∀ (f : Nat) (deps : List (String × List String)),
      (∀ (n : String) (st st' : DfsSt), DfsInv deps st →
        visit deps f n st = Except.ok st' →
        DfsInv deps st' ∧ st'.temp = st.temp ∧
          (∃ ext, st'.order = st.order ++ ext) ∧ n ∈ st'.visited ∧
          (∀ m ∈ st.visited, m ∈ st'.visited)) ∧
      (∀ (ds : List String) (st st' : DfsSt), DfsInv deps st →
        visitWith (visit deps f) ds st = Except.ok st' →
        DfsInv deps st' ∧ st'.temp = st.temp ∧
          (∃ ext, st'.order = st.order ++ ext) ∧
          (∀ d ∈ ds, d ∈ st'.visited) ∧
          (∀ m ∈ st.visited, m ∈ st'.visited)) := by
  intro f
  induction f with
  | zero =>
    intro deps
    constructor
    · intro n st st' _ h
      cases h
    · intro ds st st' hInv h
      cases ds with
      | nil =>
        simp only [visitWith, Except.ok.injEq] at h
        subst h
        exact ⟨hInv, rfl, ⟨[], by simp⟩, by simp, fun m hm => hm⟩
      | cons d rest =>
        simp only [visitWith, visit] at h
        cases h
  | succ f ih =>
    intro deps
    have ihl := (ih deps).2
    have hv : ∀ (n : String) (st st' : DfsSt), DfsInv deps st →
        visit deps (f + 1) n st = Except.ok st' →
        DfsInv deps st' ∧ st'.temp = st.temp ∧
          (∃ ext, st'.order = st.order ++ ext) ∧ n ∈ st'.visited ∧
          (∀ m ∈ st.visited, m ∈ st'.visited) := by
      intro n st st' hInv h
      obtain ⟨hT, hO, hIff, hVT, hOI⟩ := hInv
      simp only [visit] at h
      by_cases h1 : n ∈ st.temp
      · rw [if_pos h1] at h; cases h
      · rw [if_neg h1] at h
        by_cases h2 : n ∈ st.visited
        · rw [if_pos h2] at h
          cases h
          exact ⟨⟨hT, hO, hIff, hVT, hOI⟩, rfl, ⟨[], by simp⟩, h2,
            fun m hm => hm⟩
        · rw [if_neg h2] at h
          cases hw : visitWith (visit deps f) (depsOf deps n)
              { st with temp := n :: st.temp } with
          | error e => rw [hw] at h; cases h
          | ok st2 =>
            rw [hw] at h
            cases h
            have hInv1 : DfsInv deps { st with temp := n :: st.temp } := by
              refine ⟨List.nodup_cons.2 ⟨h1, hT⟩, hO, hIff, ?_, hOI⟩
              intro m hm
              simp only [List.mem_cons, not_or]
              exact ⟨fun hmn => h2 (hmn ▸ hm), hVT m hm⟩
            obtain ⟨⟨hT2, hO2, hIff2, hVT2, hOI2⟩, htemp2, ⟨ext, hext⟩,
              hdeps2, hmono2⟩ := ihl (depsOf deps n) _ st2 hInv1 hw
            have htemp2' : st2.temp = n :: st.temp := htemp2
            have hnOrd : n ∉ st2.order := by
              intro hmem
              exact hVT2 n ((hIff2 n).2 hmem) (htemp2' ▸ List.mem_cons_self n _)
            refine ⟨⟨?_, ?_, ?_, ?_, ?_⟩, ?_, ?_, ?_, ?_⟩
            · show (st2.temp.erase n).Nodup
              rw [htemp2', List.erase_cons_head]
              exact hT
            · show (st2.order ++ [n]).Nodup
              refine List.nodup_append.2 ⟨hO2, List.nodup_singleton n, ?_⟩
              intro a ha hb
              simp only [List.mem_singleton] at hb
              subst hb
              exact hnOrd ha
            · intro m
              show m ∈ n :: st2.visited ↔ m ∈ st2.order ++ [n]
              simp only [List.mem_cons, List.mem_append, List.mem_singleton]
              rw [hIff2 m]
              tauto
            · intro m hm
              show m ∉ st2.temp.erase n
              rw [htemp2', List.erase_cons_head]
              rcases List.mem_cons.1 hm with rfl | hm2
              · exact h1
              · intro hmt
                exact hVT2 m hm2 (htemp2' ▸ List.mem_cons_of_mem n hmt)
            · intro pre m post hdec d hd
              have hdec2 : pre ++ m :: post = st2.order ++ [n] := hdec.symm
              rcases append_singleton_decomp hdec2 with ⟨rfl, rfl, rfl⟩ |
                ⟨post2, hp2, hpre⟩
              · exact (hIff2 d).1 (hdeps2 d hd)
              · exact hOI2 pre m post2 hpre.symm d hd
            · show st2.temp.erase n = st.temp
              rw [htemp2', List.erase_cons_head]
            · refine ⟨ext ++ [n], ?_⟩
              show st2.order ++ [n] = st.order ++ (ext ++ [n])
              rw [← List.append_assoc]
              exact congrArg (· ++ [n]) hext
            · exact List.mem_cons_self n _
            · intro m hm
              exact List.mem_cons_of_mem n (hmono2 m hm)
    refine ⟨hv, ?_⟩
    intro ds
    induction ds with
    | nil =>
      intro st st' hInv h
      simp only [visitWith, Except.ok.injEq] at h
      subst h
      exact ⟨hInv, rfl, ⟨[], by simp⟩, by simp, fun m hm => hm⟩
    | cons d rest ihds =>
      intro st st' hInv h
      simp only [visitWith] at h
      cases hv0 : visit deps (f + 1) d st with
      | error e => rw [hv0] at h; cases h
      | ok st1 =>
        rw [hv0] at h
        obtain ⟨hI1, ht1, ⟨e1, he1⟩, hd1, hm1⟩ := hv d st st1 hInv hv0
        obtain ⟨hI2, ht2, ⟨e2, he2⟩, hd2, hm2⟩ := ihds st1 st' hI1 h
        refine ⟨hI2, by rw [ht2, ht1],
          ⟨e1 ++ e2, by rw [he2, he1, List.append_assoc]⟩, ?_,
          fun m hm => hm2 m (hm1 m hm)⟩
        intro d2 hd2m
        rcases List.mem_cons.1 hd2m with rfl | hmm
        · exact hm2 _ hd1
        · exact hd2 _ hmm

theorem topVisit_inv (deps : List (String × List String)) (fuel : Nat) :
    ∀ (ns : List String) (st st' : DfsSt), DfsInv deps st →
      topVisit deps fuel ns st = Except.ok st' →
      DfsInv deps st' ∧ (∀ n ∈ ns, n ∈ st'.visited) ∧
        (∀ m ∈ st.visited, m ∈ st'.visited) := by
  intro ns
  induction ns with
  | nil =>
    intro st st' hInv h
    simp only [topVisit, Except.ok.injEq] at h
    subst h
    exact ⟨hInv, by simp, fun m hm => hm⟩
  | cons n rest ih =>
    intro st st' hInv h
    simp only [topVisit] at h
    by_cases h1 : n ∈ st.visited
    · rw [if_pos h1] at h
      obtain ⟨hI, hall, hmono⟩ := ih st st' hInv h
      refine ⟨hI, ?_, hmono⟩
      intro m hm
      rcases List.mem_cons.1 hm with rfl | hm2
      · exact hmono m h1
      · exact hall m hm2
    · rw [if_neg h1] at h
      cases hv0 : visit deps fuel n st with
      | error e => rw [hv0] at h; cases h
      | ok st1 =>
        rw [hv0] at h
        obtain ⟨hI1, _, _, hn1, hm1⟩ :=
          (visit_inv fuel deps).1 n st st1 hInv hv0
        obtain ⟨hI2, hall2, hmono2⟩ := ih st1 st' hI1 h
        refine ⟨hI2, ?_, fun m hm => hmono2 m (hm1 m hm)⟩
        intro m hm
        rcases List.mem_cons.1 hm with rfl | hm2
        · exact hmono2 m hn1
        · exact hall2 m hm2

/-- The name universe closes over the dependency mapping. -/
def DepClosed (univ : List String) (deps : List (String × List String)) :
    Prop :=
  ∀ m l, alookup deps m = some l → ∀ d ∈ l, d ∈ univ

theorem depsOf_mem_univ {univ : List String}
    {deps : List (String × List String)} (hDC : DepClosed univ deps)
    (n d : String) (hd : d ∈ depsOf deps n) : d ∈ univ := by
  unfold depsOf at hd
  cases hl : alookup deps n with
  | none => rw [hl] at hd; cases hd
  | some l =>
    rw [hl] at hd
    exact hDC n l hl d hd

theorem nodup_subset_length {l1 l2 : List String} (h : l1.Nodup)
    (hs : l1 ⊆ l2) : l1.length ≤ l2.length :=
  (List.Nodup.subperm h hs).length_le

theorem circMsg_ne_fuel (n : String) : circMsg n ≠ "FUEL" := by
  intro h
  have hlen := congrArg String.length h
  rw [circMsg, String.length_append] at hlen
  have hlt : ("FUEL".length) <
      ("Circular dependency detected involving plugin: ".length) := by decide
  omega

theorem visit_no_fuel :
    ∀ (f : Nat) (deps : List (String × List String)) (univ : List String),
      DepClosed univ deps →
      (∀ (n : String) (st : DfsSt), n ∈ univ → st.temp ⊆ univ →
        st.temp.Nodup → univ.length < f + st.temp.length →
        visit deps f n st ≠ Except.error "FUEL") ∧
      (∀ (ds : List String) (st : DfsSt), (∀ d ∈ ds, d ∈ univ) →
        st.temp ⊆ univ → st.temp.Nodup → univ.length < f + st.temp.length →
        visitWith (visit deps f) ds st ≠ Except.error "FUEL") := by
  intro f
  induction f with
  | zero =>
    intro deps univ _
    constructor
    · intro n st _ hsub hnd hlt _
      have hle := nodup_subset_length hnd hsub
      omega
    · intro ds st _ hsub hnd hlt _
      have hle := nodup_subset_length hnd hsub
      omega
  | succ f ih =>
    intro deps univ hDC
    obtain ⟨_, ihl⟩ := ih deps univ hDC
    have hv : ∀ (n : String) (st : DfsSt), n ∈ univ → st.temp ⊆ univ →
        st.temp.Nodup → univ.length < (f + 1) + st.temp.length →
        visit deps (f + 1) n st ≠ Except.error "FUEL" := by
      intro n st hn hsub hnd hlt h
      simp only [visit] at h
      by_cases h1 : n ∈ st.temp
      · rw [if_pos h1] at h
        have hceq : circMsg n = "FUEL" := by injection h
        exact circMsg_ne_fuel n hceq
      · rw [if_neg h1] at h
        by_cases h2 : n ∈ st.visited
        · rw [if_pos h2] at h; cases h
        · rw [if_neg h2] at h
          cases hw : visitWith (visit deps f) (depsOf deps n)
              { st with temp := n :: st.temp } with
          | error e =>
            rw [hw] at h
            have he : e = "FUEL" := by injection h
            subst he
            refine ihl (depsOf deps n) { st with temp := n :: st.temp }
              (fun d hd => depsOf_mem_univ hDC n d hd) ?_ ?_ ?_ hw
            · intro x hx
              rcases List.mem_cons.1 hx with rfl | hx2
              · exact hn
              · exact hsub hx2
            · exact List.nodup_cons.2 ⟨h1, hnd⟩
            · simp only [List.length_cons]
              omega
          | ok st2 => rw [hw] at h; cases h
    refine ⟨hv, ?_⟩
    intro ds
    induction ds with
    | nil =>
      intro st _ _ _ _ h
      simp only [visitWith] at h
      cases h
    | cons d rest ihds =>
      intro st hds hsub hnd hlt h
      simp only [visitWith] at h
      cases hv0 : visit deps (f + 1) d st with
      | error e =>
        rw [hv0] at h
        have he : e = "FUEL" := by injection h
        subst he
        exact hv d st (hds d (List.mem_cons_self d rest)) hsub hnd hlt hv0
      | ok st1 =>
        rw [hv0] at h
        have ht1 : st1.temp = st.temp := visit_temp (f + 1) deps d st st1 hv0
        refine ihds st1 (fun x hx => hds x (List.mem_cons_of_mem d hx))
          ?_ ?_ ?_ h
        · rw [ht1]; exact hsub
        · rw [ht1]; exact hnd
        · rw [ht1]; exact hlt

theorem topVisit_no_fuel (deps : List (String × List String))
    (univ : List String) (hDC : DepClosed univ deps) (fuel : Nat)
    (hfuel : univ.length < fuel) :
    ∀ (ns : List String) (st : DfsSt), (∀ n ∈ ns, n ∈ univ) →
      st.temp = [] → topVisit deps fuel ns st ≠ Except.error "FUEL" := by
  intro ns
  induction ns with
  | nil =>
    intro st _ _ h
    simp only [topVisit] at h
    cases h
  | cons n rest ih =>
    intro st hns htemp h
    simp only [topVisit] at h
    by_cases h1 : n ∈ st.visited
    · rw [if_pos h1] at h
      exact ih st (fun x hx => hns x (List.mem_cons_of_mem n hx)) htemp h
    · rw [if_neg h1] at h
      cases hv0 : visit deps fuel n st with
      | error e =>
        rw [hv0] at h
        have he : e = "FUEL" := by injection h
        subst he
        refine (visit_no_fuel fuel deps univ hDC).1 n st
          (hns n (List.mem_cons_self n rest)) ?_ ?_ ?_ hv0
        · rw [htemp]; intro x hx; cases hx
        · rw [htemp]; exact List.nodup_nil
        · rw [htemp]; simp; omega
      | ok st1 =>
        rw [hv0] at h
        have ht1 : st1.temp = st.temp :=
          visit_temp fuel deps n st st1 hv0
        exact ih st1 (fun x hx => hns x (List.mem_cons_of_mem n hx))
          (ht1.trans htemp) h

theorem edge_lt (deps : List (String × List String)) (st : DfsSt)
    (hInv : DfsInv deps st) (a b : String) (ha : a ∈ st.order)
    (hb : b ∈ depsOf deps a) :
    st.order.indexOf b < st.order.indexOf a := by
  obtain ⟨pre, post, hdecomp⟩ := List.append_of_mem ha
  obtain ⟨_, hO, _, _, hOI⟩ := hInv
  have hbpre : b ∈ pre := hOI pre a post hdecomp b hb
  have hanotpre : a ∉ pre := by
    rw [hdecomp] at hO
    have hdisj := List.disjoint_of_nodup_append hO
    intro hmem
    exact hdisj hmem (List.mem_cons_self a post)
  rw [hdecomp, List.indexOf_append_of_mem hbpre,
    List.indexOf_append_of_not_mem hanotpre, List.indexOf_cons_self]
  have := List.indexOf_lt_length.2 hbpre
  omega

theorem chain_descent (deps : List (String × List String)) (st : DfsSt)
    (hInv : DfsInv deps st) :
    ∀ (rest : List String) (p : String),
      List.Chain (fun a b => b ∈ depsOf deps a) p rest →
      p ∈ st.order → (∀ m ∈ rest, m ∈ st.order) →
      st.order.indexOf ((p :: rest).getLast (by simp)) ≤
        st.order.indexOf p := by
  intro rest
  induction rest with
  | nil =>
    intro p _ _ _
    simp [List.getLast]
  | cons q rest2 ih =>
    intro p hch hp hmem
    cases hch with
    | cons hpq hch2 =>
      have hq : q ∈ st.order := hmem q (List.mem_cons_self q rest2)
      have h1 : st.order.indexOf q < st.order.indexOf p :=
        edge_lt deps st hInv p q hp hpq
      have h2 := ih q hch2 hq (fun m hm => hmem m (List.mem_cons_of_mem q hm))
      rw [List.getLast_cons]
      omega

theorem univNames_closed (s : PSys) : DepClosed (univNames s) s.dependencies := by
  intro m l hml d hd
  have hmem : (m, l) ∈ s.dependencies := alookup_mem _ _ _ hml
  simp only [univNames, List.mem_dedup, List.mem_append]
  right
  exact List.mem_flatMap.2 ⟨(m, l), hmem, List.mem_cons_of_mem _ hd⟩

theorem univNames_plugins (s : PSys) (n : String)
    (hn : n ∈ s.plugins.map Prod.fst) : n ∈ univNames s := by
  simp only [univNames, List.mem_dedup, List.mem_append]
  exact Or.inl hn

theorem determineLoadOrder_cycle (s : PSys) (p : String) (rest : List String)
    (hchain : List.Chain (fun a b => b ∈ depsOf s.dependencies a) p rest)
    (hclose : p ∈ depsOf s.dependencies ((p :: rest).getLast (by simp)))
    (hreg : ∀ n ∈ p :: rest, n ∈ s.plugins.map Prod.fst) :
    ∃ q, determineLoadOrder s = Except.error (circMsg q) := by
  cases hres : topVisit s.dependencies ((univNames s).length + 1)
      (s.plugins.map Prod.fst) { temp := [], visited := [], order := [] } with
  | ok stF =>
    exfalso
    have hInv0 : DfsInv s.dependencies
        { temp := [], visited := [], order := [] } := by
      refine ⟨List.nodup_nil, List.nodup_nil, by simp, by simp, ?_⟩
      intro pre n post hdec
      cases pre <;> cases hdec
    obtain ⟨hInvF, hall, _⟩ := topVisit_inv s.dependencies
      ((univNames s).length + 1) (s.plugins.map Prod.fst) _ stF hInv0 hres
    have hOrd : ∀ n ∈ p :: rest, n ∈ stF.order := fun n hn =>
      (hInvF.2.2.1 n).1 (hall n (hreg n hn))
    have hlast_mem : (p :: rest).getLast (by simp) ∈ p :: rest :=
      List.getLast_mem _
    have hdesc := chain_descent s.dependencies stF hInvF rest p hchain
      (hOrd p (List.mem_cons_self p rest))
      (fun m hm => hOrd m (List.mem_cons_of_mem p hm))
    have hcl := edge_lt s.dependencies stF hInvF _ p
      (hOrd _ hlast_mem) hclose
    omega
  | error e =>
    have hne : e ≠ "FUEL" := by
      intro he
      subst he
      exact topVisit_no_fuel s.dependencies (univNames s) (univNames_closed s)
        ((univNames s).length + 1) (by omega) (s.plugins.map Prod.fst)
        { temp := [], visited := [], order := [] }
        (fun n hn => univNames_plugins s n hn) rfl hres
    rcases topVisit_error_shape s.dependencies ((univNames s).length + 1)
        (s.plugins.map Prod.fst) _ e hres with he | ⟨q, hq⟩
    · exact absurd he hne
    · refine ⟨q, ?_⟩
      rw [determineLoadOrder, hres, hq]

/-- C7: for every registry whose dependency mapping carries a cycle among
registered plugins, `initializeAll()` (on a not-yet-initialized system)
fails with the descriptive circular-dependency fault raised when the DFS
reaches a plugin still on its own traversal stack: the load-order
computation throws before any plugin is touched, so the state is returned
unchanged, no initialization event occurs, and in particular no plugin of
the cycle is initialized. -/
theorem initializeAll_cycle_fails (s : PSys) (p : String) (rest : List String)
    (hchain : List.Chain (fun a b => b ∈ depsOf s.dependencies a) p rest)
    (hclose : p ∈ depsOf s.dependencies ((p :: rest).getLast (by simp)))
    (hreg : ∀ n ∈ p :: rest, n ∈ s.plugins.map Prod.fst)
    (hinit : s.initialized = false) :
    ∃ q, initializeAll s = (s, Except.error (circMsg q), []) := by
  obtain ⟨q, hq⟩ := determineLoadOrder_cycle s p rest hchain hclose hreg
  refine ⟨q, ?_⟩
  rw [initializeAll, hinit]
  simp only [Bool.false_eq_true, if_false, hq]

def c7Inst : PluginInst := { initThrows := false, instHooks := [] }

def c7Info : PluginInfo := { inst := c7Inst, enabled := true, version := "1.0.0" }

def c7Sys : PSys :=
  { plugins := [("a", c7Info), ("b", c7Info), ("c", c7Info)],
    hooks := [], pluginStates := [],
    dependencies := [("a", ["b"]), ("b", ["c"]), ("c", ["a"])],
    pluginLoadOrder := [], initialized := false }

/-- Witness for C7 at a concrete three-plugin cycle a → b → c → a. -/
theorem initializeAll_cycle_fails_witness :
    ∃ q, initializeAll c7Sys = (c7Sys, Except.error (circMsg q), []) :=
  initializeAll_cycle_fails c7Sys "a" ["b", "c"]
    (by simp [depsOf, alookup])
    (by simp [depsOf, alookup])
    (by decide) rfl

/-! ## Virtual tree and reconciler (`vanijs.js`)

Virtual nodes are strings, numbers, or element nodes (`createElement`
output: tag, props, identity key, children).  Component-tagged nodes are
expanded by `createDOM` through their producing function and do not occur
in the host-tree claims, so the embedded node domain is the host-producing
one; a number primitive is an integer or `NaN`.  Prop values mirror the JS
values the reconciler inspects: strings, numbers (including `NaN`),
booleans, `null`, `undefined`, functions and objects (the latter two by
identity); the strict-equality tests of the source are embedded as
`jsStrictEq`, which is reflexive except on `NaN`.  An absent key also reads
as `undefined` (`alookup` returning `none`).  Host nodes record
what the reconciler can mutate: attributes, `className`, applied style
objects, event listeners and children.  Every host mutation is logged;
a JS exception (e.g. `parent.firstChild` on `null`) sets a `threw` flag,
with the mutations performed up to that point preserved. -/

inductive PVal where
  | pstr (v : String)
  | pint (v : Int)
  | pnan
  | pbool (v : Bool)
  | pnull
  | pundef
  | pfn (id : Nat)
  | pobj (id : Nat)
deriving DecidableEq, Repr

/-- JS string coercion of a prop value (`setAttribute`, `className =`). -/
def pvToStr : PVal → String
  | PVal.pstr v => v
  | PVal.pint v => toString v
  | PVal.pnan => "NaN"
  | PVal.pbool v => if v then "true" else "false"
  | PVal.pnull => "null"
  | PVal.pundef => "undefined"
  | PVal.pfn _ => "function"
  | PVal.pobj _ => "[object Object]"

/-- `typeof v === 'function'`. -/
def pvIsFn : PVal → Bool
  | PVal.pfn _ => true
  | _ => false

/-- `typeof v === 'object'` — true for objects and, as in JS, for `null`. -/
def pvIsObj : PVal → Bool
  | PVal.pobj _ => true
  | PVal.pnull => true
  | _ => false

/-- JS truthiness of a prop value. -/
def pvTruthy : PVal → Bool
  | PVal.pstr v => v ≠ ""
  | PVal.pint v => v ≠ 0
  | PVal.pnan => false
  | PVal.pbool v => v
  | PVal.pnull => false
  | PVal.pundef => false
  | PVal.pfn _ => true
  | PVal.pobj _ => true

/-- JS strict equality `===` on prop values: value equality for primitives,
identity for functions and objects, and never true on `NaN`. -/
def jsStrictEq (a b : PVal) : Bool :=
  match a, b with
  | PVal.pnan, _ => false
  | _, PVal.pnan => false
  | a2, b2 => decide (a2 = b2)

/-- `===` against a possibly-absent (`undefined`) left operand. -/
def jsStrictEqOpt (o : Option PVal) (b : PVal) : Bool :=
  match o with
  | some v => jsStrictEq v b
  | none => false

/-- `oldVNode.key !== newVNode.key`, negated: both keys absent
(`undefined === undefined`) or strictly equal values. -/
def jsStrictEqKey : Option PVal → Option PVal → Bool
  | none, none => true
  | some a, some b => jsStrictEq a b
  | _, _ => false

/-- `v === undefined || v === null`. -/
def pvNullish : PVal → Bool
  | PVal.pnull => true
  | PVal.pundef => true
  | _ => false

/-- A virtual node (`createElement` output or a primitive child). -/
inductive VNode where
  | vs (s : String)
  | vi (n : Int)
  | vnan
  | elem (tag : String) (props : List (String × PVal)) (key : Option PVal)
      (children : List VNode)
deriving Repr

/-- A host (DOM) node: a text node or an element with its mutable
attribute map, `className`, applied style objects, event listeners and
child list. -/
inductive DNode where
  | text (s : String)
  | elem (tag : String) (attrs : List (String × String)) (cls : String)
      (styles : List Nat) (listeners : List (String × Nat))
      (children : List DNode)
deriving Repr

/-- The host mutations the reconciler can perform. -/
inductive Mut where
  | clearContainer
  | append
  | removeChild
  | replaceChild
  | setAttr
  | removeAttr
  | addListener
  | removeListener
  | setClass
  | styleAssign
  | styleReset
deriving DecidableEq, Repr

/-- Event type of a handler prop: `key.toLowerCase().substring(2)`. -/
def evType (k : String) : String := (k.toLower).drop 2

/-- `key.startsWith('on')`, decided on the character list. -/
def isOn (k : String) : Bool :=
  match k.data with
  | 'o' :: 'n' :: _ => true
  | _ => false

/-- Configure one prop on a freshly created element (`createDOM`'s prop
loop): handler props attach listeners, `className` and object-valued
`style` are special-cased, `key`/`children` are skipped, everything else
becomes an attribute. -/
def setProp (d : DNode) (k : String) (v : PVal) : DNode :=
  match d with
  | DNode.text s => DNode.text s
  | DNode.elem t a c st ls ch =>
    if isOn k ∧ pvIsFn v then
      match v with
      | PVal.pfn id => DNode.elem t a c st (ls ++ [(evType k, id)]) ch
      | _ => DNode.elem t a c st ls ch
    else if k = "className" then DNode.elem t a (pvToStr v) st ls ch
    else if k = "style" ∧ pvIsObj v then
      match v with
      | PVal.pobj id => DNode.elem t a c (st ++ [id]) ls ch
      | _ => DNode.elem t a c st ls ch
    else if k ≠ "key" ∧ k ≠ "children" then
      DNode.elem t (aset a k (pvToStr v)) c st ls ch
    else d

/-- Replace an element's children (the freshly built element has none). -/
def withChildren (d : DNode) (ch : List DNode) : DNode :=
  match d with
  | DNode.text s => DNode.text s
  | DNode.elem t a c st ls _ => DNode.elem t a c st ls ch

mutual
/-- `createDOM(vnode)`: primitives become text nodes (`String(value)`),
elements are created, configured from their props and filled with their
recursively created children. -/
def createDOM : VNode → DNode
  | VNode.vs s => DNode.text s
  | VNode.vi n => DNode.text (toString n)
  | VNode.vnan => DNode.text "NaN"
  | VNode.elem tag props _ children =>
    withChildren
      (props.foldl (fun d kv => setProp d kv.1 kv.2)
        (DNode.elem tag [] "" [] [] []))
      (createDOMList children)

/-- Children of `createDOM`, in order. -/
def createDOMList : List VNode → List DNode
  | [] => []
  | c :: cs => createDOM c :: createDOMList cs
end

/-- `isVNodeChanged(oldVNode, newVNode)`: differing runtime kind, differing
primitive value (`!==`, so a `NaN` number always counts as changed), or
differing `tag` or identity `key` (again `!==` on the keys). -/
def isVNodeChanged : VNode → VNode → Bool
  | VNode.vs a, VNode.vs b => a ≠ b
  | VNode.vi a, VNode.vi b => a ≠ b
  | VNode.vi _, VNode.vnan => true
  | VNode.vnan, VNode.vi _ => true
  | VNode.vnan, VNode.vnan => true
  | VNode.elem t1 _ k1 _, VNode.elem t2 _ k2 _ =>
    t1 ≠ t2 ∨ ¬ jsStrictEqKey k1 k2
  | _, _ => true

/-- `oldVNode.props` (primitives have no props; unreachable there, since
`isVNodeChanged` rules primitives out of the property-reconciling branch). -/
def vnodeProps : VNode → List (String × PVal)
  | VNode.elem _ ps _ _ => ps
  | _ => []

/-- `oldVNode.children || []`. -/
def vnodeChildren : VNode → List VNode
  | VNode.elem _ _ _ cs => cs
  | _ => []

/-- Result of mutating one host element in place. -/
structure ERes where
  el : DNode
  muts : List Mut
  threw : Bool
deriving Repr

/-- The removal branch of `updateProperties` (new value absent): detach the
old handler, clear `className`, reset `style`, or remove the attribute
(`removeAttribute` on a text node throws). -/
def remProp (d : DNode) (k : String) (oldv : Option PVal) : ERes :=
  match d with
  | DNode.text s =>
    if isOn k then
      match oldv with
      | some (PVal.pfn _) => ⟨DNode.text s, [Mut.removeListener], false⟩
      | _ => ⟨DNode.text s, [], false⟩
    else if k = "className" then ⟨DNode.text s, [], false⟩
    else if k = "style" then ⟨DNode.text s, [], false⟩
    else ⟨DNode.text s, [], true⟩
  | DNode.elem t a c st ls ch =>
    if isOn k then
      match oldv with
      | some (PVal.pfn id) =>
        ⟨DNode.elem t a c st (ls.erase (evType k, id)) ch,
          [Mut.removeListener], false⟩
      | _ => ⟨DNode.elem t a c st ls ch, [], false⟩
    else if k = "className" then
      ⟨DNode.elem t a "" st ls ch, [Mut.setClass], false⟩
    else if k = "style" then
      ⟨DNode.elem t a c [] ls ch, [Mut.styleReset], false⟩
    else ⟨DNode.elem t (aremove a k) c st ls ch, [Mut.removeAttr], false⟩

/-- The add/overwrite branch of `updateProperties` (values differ): swap the
event handler (detaching a truthy old value first — a truthy non-function
old listener makes `removeEventListener` throw), assign `className`, merge
an object `style`, or set the attribute (`setAttribute`/`Object.assign` on
a text node throw). -/
def setPropU (d : DNode) (k : String) (oldv : Option PVal) (nv : PVal) :
    ERes :=
  if isOn k ∧ pvIsFn nv then
    match nv with
    | PVal.pfn nid =>
      match oldv with
      | some ov =>
        if pvTruthy ov then
          match ov with
          | PVal.pfn oid =>
            match d with
            | DNode.text s =>
              ⟨DNode.text s, [Mut.removeListener, Mut.addListener], false⟩
            | DNode.elem t a c st ls ch =>
              ⟨DNode.elem t a c st
                  ((ls.erase (evType k, oid)) ++ [(evType k, nid)]) ch,
                [Mut.removeListener, Mut.addListener], false⟩
          | _ => ⟨d, [], true⟩
        else
          match d with
          | DNode.text s => ⟨DNode.text s, [Mut.addListener], false⟩
          | DNode.elem t a c st ls ch =>
            ⟨DNode.elem t a c st (ls ++ [(evType k, nid)]) ch,
              [Mut.addListener], false⟩
      | none =>
        match d with
        | DNode.text s => ⟨DNode.text s, [Mut.addListener], false⟩
        | DNode.elem t a c st ls ch =>
          ⟨DNode.elem t a c st (ls ++ [(evType k, nid)]) ch,
            [Mut.addListener], false⟩
    | _ => ⟨d, [], false⟩
  else if k = "className" then
    match d with
    | DNode.text s => ⟨DNode.text s, [], false⟩
    | DNode.elem t a _ st ls ch =>
      ⟨DNode.elem t a (pvToStr nv) st ls ch, [Mut.setClass], false⟩
  else if k = "style" ∧ pvIsObj nv then
    match nv with
    | PVal.pobj id =>
      match d with
      | DNode.text s => ⟨DNode.text s, [], true⟩
      | DNode.elem t a c st ls ch =>
        ⟨DNode.elem t a c (st ++ [id]) ls ch, [Mut.styleAssign], false⟩
    | _ => ⟨d, [], false⟩
  else if k ≠ "key" then
    match d with
    | DNode.text s => ⟨DNode.text s, [], true⟩
    | DNode.elem t a c st ls ch =>
      ⟨DNode.elem t (aset a k (pvToStr nv)) c st ls ch, [Mut.setAttr], false⟩
  else ⟨d, [], false⟩

/-- Iteration order of `Object.keys({ ...oldProps, ...newProps })`: the old
keys in order, then the new-only keys in order. -/
def unionKeys (a b : List (String × PVal)) : List String :=
  a.map Prod.fst ++
    (b.map Prod.fst).filter (fun k => ¬ (a.map Prod.fst).contains k)

/-- Result of `updateProperties` on a possibly-absent element. -/
structure URes where
  el : Option DNode
  muts : List Mut
  threw : Bool
deriving Repr

/-- One key of the `updateProperties` loop: the removal branch fires when
the new value reads as `undefined` (absent key) or is a present
`null`/`undefined` value; otherwise the add/overwrite branch runs unless
old and new values are strictly equal (`===`, never true on `NaN`). -/
def upStep (oldProps newProps : List (String × PVal))
    (acc : ERes) (k : String) : ERes :=
  if acc.threw then acc
  else
    let oldValue := alookup oldProps k
    match alookup newProps k with
    | none =>
      let r := remProp acc.el k oldValue
      ⟨r.el, acc.muts ++ r.muts, r.threw⟩
    | some nv =>
      if pvNullish nv then
        let r := remProp acc.el k oldValue
        ⟨r.el, acc.muts ++ r.muts, r.threw⟩
      else if jsStrictEqOpt oldValue nv then acc
      else
        let r := setPropU acc.el k oldValue nv
        ⟨r.el, acc.muts ++ r.muts, r.threw⟩

/-- `updateProperties(element, oldProps, newProps)`: a `null` element is a
no-op; otherwise, for the union of old and new keys, remove keys whose new
value is `undefined`/`null` (absent or present) and add/overwrite keys with
strictly differing values. -/
def updateProperties (element : Option DNode)
    (oldProps newProps : List (String × PVal)) : URes :=
  match element with
  | none => ⟨none, [], false⟩
  | some el0 =>
    let r := (unionKeys oldProps newProps).foldl (upStep oldProps newProps)
      ⟨el0, [], false⟩
    ⟨some r.el, r.muts, r.threw⟩

/-- Pairwise child alignment up to `max(oldChildCount, newChildCount)`,
out-of-range entries absent (`undefined`). -/
def zipPad : List VNode → List VNode → List (Option VNode × Option VNode)
  | [], ys => ys.map (fun y => (none, some y))
  | x :: xs, [] => (some x, none) :: zipPad xs []
  | x :: xs, y :: ys => (some x, some y) :: zipPad xs ys

/-- `parent.firstChild` (text nodes and childless elements give `null`). -/
def firstChildD : DNode → Option DNode
  | DNode.text _ => none
  | DNode.elem _ _ _ _ _ ch => ch.head?

/-- Write back a (possibly replaced) first child. -/
def setFirst (d : DNode) (c : Option DNode) : DNode :=
  match d, c with
  | DNode.elem t a cl st ls (_ :: rest), some c2 =>
    DNode.elem t a cl st ls (c2 :: rest)
  | _, _ => d

/-- Result of `patch` on a possibly-`null` parent: the updated parent, the
host mutations performed, and whether a JS exception was thrown (mutations
up to the throw kept). -/
structure PRes where
  child : Option DNode
  muts : List Mut
  threw : Bool
deriving Repr

/-- The child loop of `patch`: each pair is patched against the parent's
current first child (re-read each iteration), an exception aborting the
loop. -/
def patchPairs (pf : Option DNode → Option VNode → Option VNode → PRes) :
    List (Option VNode × Option VNode) → PRes → PRes
  | [], acc => acc
  | pr :: rest, acc =>
    let r := pf acc.child pr.1 pr.2
    if r.threw then ⟨r.child, acc.muts ++ r.muts, true⟩
    else patchPairs pf rest ⟨r.child, acc.muts ++ r.muts, false⟩

/-- `patch(parent, oldVNode, newVNode)`.  Faithful structure: double-absent
no-op; mount of a new-only subtree (`appendChild`); removal of an old-only
subtree (guarded `removeChild(parent.firstChild)`); wholesale
`replaceChild(createDOM(newVNode), parent.firstChild)` when changed; else,
for an element-tagged new node (`typeof newVNode === 'object' &&
newVNode.tag`), reconcile properties on `parent.firstChild` and recurse
pairwise over the children against `parent.firstChild`.  Note the source
addresses `parent.firstChild` throughout — not the child at the pair's
index.  Accessing `firstChild` of a `null` parent, appending to a text
node, or replacing a missing first child throws.  Fuel bounds only the
recursion depth (the virtual-tree depth); `patchRoot` supplies enough. -/
def patch : Nat → Option DNode → Option VNode → Option VNode → PRes
  | 0, p, _, _ => ⟨p, [], true⟩
  | _ + 1, p, none, none => ⟨p, [], false⟩
  | _ + 1, p, none, some nv =>
    match p with
    | none => ⟨none, [], true⟩
    | some (DNode.text s) => ⟨some (DNode.text s), [], true⟩
    | some (DNode.elem t a c st ls ch) =>
      ⟨some (DNode.elem t a c st ls (ch ++ [createDOM nv])), [Mut.append],
        false⟩
  | _ + 1, p, some _, none =>
    match p with
    | none => ⟨none, [], true⟩
    | some (DNode.text s) => ⟨some (DNode.text s), [], false⟩
    | some (DNode.elem t a c st ls ch) =>
      match ch with
      | [] => ⟨some (DNode.elem t a c st ls []), [], false⟩
      | _ :: rest =>
        ⟨some (DNode.elem t a c st ls rest), [Mut.removeChild], false⟩
  | f + 1, p, some ov, some nv =>
    if isVNodeChanged ov nv then
      match p with
      | none => ⟨none, [], true⟩
      | some (DNode.text s) => ⟨some (DNode.text s), [], true⟩
      | some (DNode.elem t a c st ls ch) =>
        match ch with
        | [] => ⟨some (DNode.elem t a c st ls []), [], true⟩
        | _ :: rest =>
          ⟨some (DNode.elem t a c st ls (createDOM nv :: rest)),
            [Mut.replaceChild], false⟩
    else
      match nv with
      | VNode.elem ntag nprops _ nCs =>
        if ntag = "" then ⟨p, [], false⟩
        else
          match p with
          | none => ⟨none, [], true⟩
          | some el =>
            let u := updateProperties (firstChildD el) (vnodeProps ov) nprops
            if u.threw then ⟨some (setFirst el u.el), u.muts, true⟩
            else
              let res := patchPairs (patch f) (zipPad (vnodeChildren ov) nCs)
                ⟨u.el, u.muts, false⟩
              ⟨some (setFirst el res.child), res.muts, res.threw⟩
      | _ => ⟨p, [], false⟩

mutual
/-- Depth of a virtual node, used only to size the patch fuel. -/
def vdepth : VNode → Nat
  | VNode.vs _ => 1
  | VNode.vi _ => 1
  | VNode.vnan => 1
  | VNode.elem _ _ _ cs => vdepthList cs + 1

/-- Maximum depth of a child list. -/
def vdepthList : List VNode → Nat
  | [] => 0
  | c :: cs => max (vdepth c) (vdepthList cs)
end

/-- A prop value on which the `updateProperties` skip (`===`, non-nullish)
behaves: not `null`, not `undefined`, not `NaN`. -/
def pvClean : PVal → Bool
  | PVal.pnull => false
  | PVal.pundef => false
  | PVal.pnan => false
  | _ => true

/-- An identity key on which `key !== key` is false: any key but `NaN`. -/
def keyClean : Option PVal → Bool
  | some PVal.pnan => false
  | _ => true

/-- All prop values of a node are clean. -/
def propsClean (ps : List (String × PVal)) : Bool :=
  ps.all fun kv => pvClean kv.2

mutual
/-- A tree on which same-tree reconciliation takes no action: clean props
and key at every element, no `NaN` primitive anywhere. -/
def vClean : VNode → Bool
  | VNode.vs _ => true
  | VNode.vi _ => true
  | VNode.vnan => false
  | VNode.elem _ ps k cs => propsClean ps && keyClean k && vCleanList cs

/-- All children clean. -/
def vCleanList : List VNode → Bool
  | [] => true
  | c :: cs => vClean c && vCleanList cs
end

mutual
/-- Text content of a host subtree, in document order (observation used to
compare host results against expected child positions). -/
def dtexts : DNode → List String
  | DNode.text s => [s]
  | DNode.elem _ _ _ _ _ ch => dtextsList ch

/-- Text content of a host child list. -/
def dtextsList : List DNode → List String
  | [] => []
  | c :: cs => dtexts c ++ dtextsList cs
end

def c2Old : VNode := VNode.elem "div" [] none [VNode.vs "a", VNode.vs "b"]

def c2New : VNode := VNode.elem "div" [] none [VNode.vs "a", VNode.vs "c"]

def c2Shrunk : VNode := VNode.elem "div" [] none [VNode.vs "a"]

def c2Cont : DNode := DNode.elem "app" [] "" [] [] [createDOM c2Old]

/-- C2 (failing run): reconciling `div[a, b] → div[a, c]` — the only change
is the primitive at child index 1 — makes `patch` replace the host child at
position 0, yielding text content `[c, b]` instead of the expected
`[a, c]`; and reconciling `div[a, b] → div[a]` — new child absent at index
1 — removes the host child at position 0, yielding `[b]` instead of `[a]`.
Every mutation of the child loop targets `parent.firstChild`, not the child
at the pair's index. -/
theorem patch_targets_first_child :
    (patch 5 (some c2Cont) (some c2Old) (some c2New)).child =
        some (DNode.elem "app" [] "" [] []
          [DNode.elem "div" [] "" [] [] [DNode.text "c", DNode.text "b"]]) ∧
    (patch 5 (some c2Cont) (some c2Old) (some c2New)).muts =
        [Mut.replaceChild] ∧
    dtexts ((patch 5 (some c2Cont) (some c2Old) (some c2New)).child.getD
        (DNode.text "")) = ["c", "b"] ∧
    (["c", "b"] : List String) ≠ ["a", "c"] ∧
    (patch 5 (some c2Cont) (some c2Old) (some c2Shrunk)).child =
        some (DNode.elem "app" [] "" [] []
          [DNode.elem "div" [] "" [] [] [DNode.text "b"]]) ∧
    (patch 5 (some c2Cont) (some c2Old) (some c2Shrunk)).muts =
        [Mut.removeChild] ∧
    dtexts ((patch 5 (some c2Cont) (some c2Old) (some c2Shrunk)).child.getD
        (DNode.text "")) = ["b"] ∧
    (["b"] : List String) ≠ ["a"] :=
  ⟨rfl, rfl, rfl, by decide, rfl, rfl, rfl, by decide⟩

inductive JVal where
  | jnull
  | jbool (b : Bool)
  | jnum (n : Int)
  | jstr (s : String)
  | jobj (fields : List (String × JVal))
deriving Repr

/-- JS truthiness of a state value (`if (!this.state[stateKey])`). -/
def jsTruthy : JVal → Bool
  | JVal.jnull => false
  | JVal.jbool b => b
  | JVal.jnum n => n ≠ 0
  | JVal.jstr s => s ≠ ""
  | JVal.jobj _ => true

/-- The enumerable own fields contributed by spreading a value: an object
spreads its fields, a string its indexed characters, primitives nothing. -/
def spreadFields : JVal → List (String × JVal)
  | JVal.jobj fs => fs
  | JVal.jstr s =>
    s.data.enum.map (fun p => (toString p.1, JVal.jstr (String.mk [p.2])))
  | _ => []

/-- `{ ...a, ...b }` on field lists: `a`'s keys in order with `b`'s values
overriding, then `b`-only keys in order. -/
def mergeAssoc (a b : List (String × JVal)) : List (String × JVal) :=
  a.map (fun kv =>
    match alookup b kv.1 with
    | some v => (kv.1, v)
    | none => kv) ++
  b.filter (fun kv => ¬ (alookup a kv.1).isSome)

/-- The framework state `useState` touches: the state map and the ambient
current screen name. -/
structure VaniSt where
  state : List (String × JVal)
  currentComponent : Option String
deriving Repr

/-- The state key of a screen: `componentName + "_state"`. -/
def stateKeyOf (name : String) : String := name ++ "_state"

/-- `useState`'s `initialState`: a value or a zero-argument producer. -/
inductive InitArg where
  | v (val : JVal)
  | producer (f : Unit → JVal)

/-- Evaluate the initial state
(`typeof initialState === 'function' ? initialState() : initialState`). -/
def evalInit : InitArg → JVal
  | InitArg.v val => val
  | InitArg.producer f => f ()

/-- The argument accepted by the returned updater: a replacement-producer
function or a plain (merge) value. -/
inductive UpdArg where
  | v (val : JVal)
  | f (g : JVal → JVal)

/-- `useState(initialState)`: invalid outside a screen evaluation; the
slot keyed by the screen name is (re)initialized when absent or falsy;
returns the current slot value (the paired updater is `setState` at the
same key). -/
def useState (s : VaniSt) (initial : InitArg) :
    Except String (VaniSt × JVal) :=
  match s.currentComponent with
  | none => Except.error "useState must be called within a component"
  | some name =>
    let stateKey := stateKeyOf name
    let s1 :=
      if ((alookup s.state stateKey).map jsTruthy).getD false then s
      else { s with state := aset s.state stateKey (evalInit initial) }
    Except.ok (s1, (alookup s1.state stateKey).getD JVal.jnull)

/-- The body of the updater returned by `useState`: a function argument
replaces the slot with its result on the old value; any other argument is
spread-merged over the old value (`{ ...oldState, ...newState }`). -/
def setState (s : VaniSt) (stateKey : String) (newState : UpdArg) : VaniSt :=
  let oldState := (alookup s.state stateKey).getD JVal.jnull
  let newVal :=
    match newState with
    | UpdArg.f g => g oldState
    | UpdArg.v v =>
      JVal.jobj (mergeAssoc (spreadFields oldState) (spreadFields v))
  { s with state := aset s.state stateKey newVal }

/-! ### State store theorems -/

/-- C9: for object-shaped screen state, the updater with a non-function
object argument shallow-merges it into the old value (old keys first, new
keys overriding/appended) rather than replacing it — merging `b = 2` into
`a = 1` yields both keys, never the new object alone — while a function
argument replaces the slot with the function applied to the old value. -/
theorem setState_merges :
    (∀ (s : VaniSt) (name : String) (old u : List (String × JVal)),
        alookup s.state (stateKeyOf name) = some (JVal.jobj old) →
        setState s (stateKeyOf name) (UpdArg.v (JVal.jobj u)) =
          VaniSt.mk
            (aset s.state (stateKeyOf name) (JVal.jobj (mergeAssoc old u)))
            s.currentComponent) ∧
    (∀ (s : VaniSt) (key : String) (old : JVal) (g : JVal → JVal),
        alookup s.state key = some old →
        setState s key (UpdArg.f g) =
          { s with state := aset s.state key (g old) }) ∧
    (mergeAssoc [("a", JVal.jnum 1)] [("b", JVal.jnum 2)] =
        [("a", JVal.jnum 1), ("b", JVal.jnum 2)]) ∧
    ((mergeAssoc [("a", JVal.jnum 1)] [("b", JVal.jnum 2)]).map Prod.fst ≠
        ["b"]) := by
  refine ⟨?_, ?_, rfl, by decide⟩
  · intro s name old u h
    simp [setState, h, spreadFields]
  · intro s key old g h
    simp [setState, h]

def c9St : VaniSt :=
  { state := [(stateKeyOf "Counter", JVal.jobj [("a", JVal.jnum 1)])],
    currentComponent := some "Counter" }

/-- Witness for C9 at a concrete screen state `a = 1` merged with `b = 2`. -/
theorem setState_merges_witness :
    alookup c9St.state (stateKeyOf "Counter") =
        some (JVal.jobj [("a", JVal.jnum 1)]) ∧
      setState c9St (stateKeyOf "Counter")
          (UpdArg.v (JVal.jobj [("b", JVal.jnum 2)])) =
        VaniSt.mk
          (aset c9St.state (stateKeyOf "Counter")
            (JVal.jobj (mergeAssoc [("a", JVal.jnum 1)]
              [("b", JVal.jnum 2)])))
          c9St.currentComponent :=
  ⟨rfl, setState_merges.1 c9St "Counter" [("a", JVal.jnum 1)]
    [("b", JVal.jnum 2)] rfl⟩
